import Mathlib

/-!
Verification of the documents edge function
(supabase/functions/documents/index.ts) against its specification,
together with the uniqueness constraint on document assignments declared in
supabase/migrations/20250919000000_documents_schema.sql.

The embedding is shallow: request handlers become pure functions over an
explicit datastore state (documents, assignments, blob storage), external
collaborators (identity provider, blob store outcome, PDF parser outcome,
generative-text response) become explicit inputs, and JavaScript string
operations are modelled over character lists.
-/

set_option linter.unusedVariables false

namespace MetroDocs

/-- JavaScript truthiness of a nullable string: null and the empty string are falsy. -/
def jsTruthyS : Option String → Bool
  | none => false
  | some s => !(s == "")

/-- Characters removed by the JavaScript string trim operation (common subset). -/
def jsWs (c : Char) : Bool :=
  c == ' ' || c == '\t' || c == '\n' || c == '\r'

/-- Model of the JavaScript string trim: drop whitespace from both ends. -/
def jsTrim (s : String) : String :=
  ⟨((s.data.dropWhile jsWs).reverse.dropWhile jsWs).reverse⟩

/-- Model of the JavaScript array join with a separator. -/
def sepJoin (sep : String) : List String → String
  | [] => ""
  | [a] => a
  | a :: b :: rest => a ++ sep ++ sepJoin sep (b :: rest)

/-- Concatenation of a list of strings, modelling string accumulation in a loop. -/
def concatAll : List String → String
  | [] => ""
  | a :: rest => a ++ concatAll rest

/-- Character-count based drop, modelling JavaScript string slicing. -/
def strDropChars (s : String) (n : Nat) : String := ⟨s.data.drop n⟩

/-- Character-count based take, modelling JavaScript string slice from zero. -/
def strTakeChars (s : String) (n : Nat) : String := ⟨s.data.take n⟩

/-- Drop n characters from the right end of a string. -/
def strDropRightChars (s : String) (n : Nat) : String :=
  ⟨(s.data.reverse.drop n).reverse⟩

/-- Character length of a string. -/
def strLen (s : String) : Nat := s.data.length

/-- Does s start with p (character-wise)? -/
def strStarts (s p : String) : Bool := p.data.isPrefixOf s.data

/-- Does s end with p (character-wise)? -/
def strEnds (s p : String) : Bool := p.data.reverse.isPrefixOf s.data.reverse

/-- Remove the first occurrence of a pattern from a character list. -/
def removeFirstAux (pat : List Char) : List Char → List Char
  | [] => []
  | c :: rest =>
    if pat.isPrefixOf (c :: rest) then (c :: rest).drop pat.length
    else c :: removeFirstAux pat rest

/-- Model of the JavaScript string replace of the first occurrence by the empty string. -/
def replaceFirst (s pat : String) : String := ⟨removeFirstAux pat.data s.data⟩

/-- The identity resolved for a request: the user id together with the role stored
in the user metadata. -/
structure UserMeta where
  id : String
  role : String
  deriving DecidableEq, Repr

/-- The part of getAuthUser that validates a bearer token: if an Authorization
header is (truthily) present, strip the Bearer marker and ask the identity
provider (the abstract validate function); no header means no token identity. -/
def tokenUser (validate : String → Option UserMeta) (authHeader : Option String) :
    Option UserMeta :=
  if jsTruthyS authHeader then validate (replaceFirst (authHeader.getD "") "Bearer ")
  else none

/-- getAuthUser from index.ts: first the bearer token path; on failure the mock
header fallback (x-mock-role and x-mock-user-id, both truthy); otherwise null. -/
def getAuthUser (validate : String → Option UserMeta)
    (authHeader mockRole mockUserId : Option String) : Option UserMeta :=
  match tokenUser validate authHeader with
  | some u => some u
  | none =>
    if jsTruthyS mockRole && jsTruthyS mockUserId then
      some { id := mockUserId.getD "", role := mockRole.getD "" }
    else none

/-- isAdmin from index.ts: the metadata role equals admin; a null user is not admin. -/
def isAdmin : Option UserMeta → Bool
  | some u => u.role == "admin"
  | none => false

/-- parsePdfToText from index.ts. The pdf library outcome is modelled as
none (the load or any page access threw, caught and turned into the empty
string) or some pages, each page a list of text items. On success the code
joins the items of each page with spaces, appends a newline after each page,
and trims the final result. -/
def pageText (items : List String) : String := sepJoin " " items

def parsePdfToText (pdf : Option (List (List String))) : String :=
  match pdf with
  | none => ""
  | some pages => jsTrim (concatAll (pages.map (fun p => pageText p ++ "\n")))

/-- The fixed instruction prompt built by summarizeWithGemini, with the document
text truncated to its first 120000 characters. -/
def geminiPrompt (text : String) : String :=
  "Summarize this document and extract: date of issue, who issued it, to whom it is addressed, important details, important names, and any critical information. Return a concise, structured summary.\n\nDocument Text:\n" ++ strTakeChars text 120000

/-- Outcome of the generative-text HTTP call: the ok flag of the response and the
optional first-candidate text of the payload. -/
structure GeminiResp where
  ok : Bool
  candidateText : Option String
  deriving DecidableEq, Repr

/-- summarizeWithGemini from index.ts: no API key means empty string immediately;
a non-ok response means empty string; otherwise the first candidate text
(empty when absent), trimmed. -/
def summarizeWithGemini (apiKey : Option String) (resp : GeminiResp) (text : String) :
    String :=
  if !jsTruthyS apiKey then ""
  else
    let _prompt := geminiPrompt text
    if !resp.ok then ""
    else jsTrim (resp.candidateText.getD "")

/-- An uploaded file as read from the multipart form. -/
structure FileData where
  name : String
  ftype : String
  bytes : List Nat
  deriving DecidableEq, Repr

/-- A row of the documents table. -/
structure DocRow where
  id : String
  title : String
  file_url : String
  parsed_text : Option String
  summary : Option String
  status : String
  created_at : Nat
  created_by : Option String
  deriving DecidableEq, Repr

/-- A row of the document_assignments table (the doc and user pair; the schema
declares unique (doc_id, user_id)). -/
structure AssignRow where
  doc_id : String
  user_id : String
  deriving DecidableEq, Repr

/-- The fields selected by the list endpoints:
id, title, file_url, summary, status, created_at. -/
structure DocView where
  id : String
  title : String
  file_url : String
  summary : Option String
  status : String
  created_at : Nat
  deriving DecidableEq, Repr

/-- The datastore and blob storage state visible to the edge function. -/
structure State where
  storage : List (String × List Nat)
  documents : List DocRow
  assignments : List AssignRow
  deriving DecidableEq, Repr

/-- The bodies the edge function produces. -/
inductive RespBody where
  | text : String → RespBody
  | errJson : String → RespBody
  | uploadJson : String → String → String → String → RespBody
  | okJson : RespBody
  | docList : List DocView → RespBody
  deriving DecidableEq, Repr

/-- An HTTP response: status code and body. -/
structure HResponse where
  status : Nat
  body : RespBody
  deriving DecidableEq, Repr

/-- External inputs of one upload request: the form fields, the generated
storage uuid, the blob store outcome, the document insert outcome, the public
URL resolver, the generated document id and timestamp, the PDF parser outcome
and the generative-text configuration and response. -/
structure UploadCtx where
  file : Option FileData
  titleField : Option String
  uuid : String
  uploadErr : Option String
  insertErr : Option String
  publicUrl : String → String
  docId : String
  now : Nat
  pdf : Option (List (List String))
  geminiKey : Option String
  geminiResp : GeminiResp

/-- The title used by handleUpload: the form title if truthy, else the file
name, else Untitled. -/
def uploadTitle (titleField : Option String) (file : Option FileData) : String :=
  let alt := match file with
    | some f => f.name
    | none => "Untitled"
  match titleField with
  | some t => if t == "" then alt else t
  | none => alt

/-- The synthesized description handed to the summarizer when extraction
yielded nothing, referencing the public URL of the file. -/
def fallbackDescription (url : String) : String :=
  "The document is at " ++ url ++ ". Summarize based on its content."

/-- handleUpload from index.ts: admin gate, file requirement, blob store write,
document insert with status pending, best-effort text extraction and
summarization persisted by two unchecked updates, and the minimal
confirmation response. -/
def handleUpload (user : Option UserMeta) (ctx : UploadCtx) (st : State) :
    HResponse × State :=
  if !isAdmin user then ({ status := 403, body := .text "Forbidden" }, st)
  else
    let title := uploadTitle ctx.titleField ctx.file
    match ctx.file with
    | none => ({ status := 400, body := .errJson "file required" }, st)
    | some file =>
      let storagePath := ctx.uuid ++ "-" ++ file.name
      match ctx.uploadErr with
      | some msg => ({ status := 500, body := .errJson msg }, st)
      | none =>
        let st1 : State := { st with storage := st.storage ++ [(storagePath, file.bytes)] }
        let fileUrl := ctx.publicUrl storagePath
        match ctx.insertErr with
        | some msg => ({ status := 500, body := .errJson msg }, st1)
        | none =>
          let doc : DocRow :=
            { id := ctx.docId, title := title, file_url := fileUrl,
              parsed_text := none, summary := none, status := "pending",
              created_at := ctx.now, created_by := user.map (fun u => u.id) }
          let st2 : State := { st1 with documents := st1.documents ++ [doc] }
          let parsedText := parsePdfToText ctx.pdf
          let docs3 := st2.documents.map (fun d =>
            if d.id == ctx.docId then { d with parsed_text := some parsedText } else d)
          let st3 : State := { st2 with documents := docs3 }
          let summaryInput :=
            if parsedText == "" then fallbackDescription fileUrl else parsedText
          let summary := summarizeWithGemini ctx.geminiKey ctx.geminiResp summaryInput
          let docs4 := st3.documents.map (fun d =>
            if d.id == ctx.docId then { d with summary := some summary } else d)
          let st4 : State := { st3 with documents := docs4 }
          ({ status := 200, body := .uploadJson ctx.docId title fileUrl "pending" }, st4)

/-- Insertion sort by descending creation timestamp, modelling the
order by created_at descending of the list endpoints. -/
def insertByCreatedDesc (d : DocRow) : List DocRow → List DocRow
  | [] => [d]
  | x :: xs =>
    if x.created_at ≤ d.created_at then d :: x :: xs else x :: insertByCreatedDesc d xs

def sortByCreatedDesc (l : List DocRow) : List DocRow := l.foldr insertByCreatedDesc []

/-- Projection of a document row to the selected fields. -/
def toView (d : DocRow) : DocView :=
  { id := d.id, title := d.title, file_url := d.file_url, summary := d.summary,
    status := d.status, created_at := d.created_at }

/-- handlePending from index.ts: admin gate, then the pending documents ordered
by creation timestamp descending. -/
def handlePending (user : Option UserMeta) (st : State) : HResponse :=
  if !isAdmin user then { status := 403, body := .text "Forbidden" }
  else
    { status := 200,
      body := .docList ((sortByCreatedDesc (st.documents.filter
        (fun d => ["pending"].contains d.status))).map toView) }

/-- Membership of a (doc, user) pair in the assignments table. -/
def pairMem (l : List AssignRow) (r : AssignRow) : Bool :=
  l.any (fun a => a.doc_id == r.doc_id && a.user_id == r.user_id)

/-- The batch insert into document_assignments, with the unique (doc_id, user_id)
constraint of the schema: the statement fails as a whole (nothing committed)
as soon as one inserted row duplicates an existing pair or an earlier row of
the same batch; otherwise all rows are appended. -/
def insertAssignments (existing : List AssignRow) :
    List AssignRow → Except String (List AssignRow)
  | [] => .ok existing
  | r :: rest =>
    if pairMem existing r then .error "duplicate key value violates unique constraint"
    else insertAssignments (existing ++ [r]) rest

/-- The status update of handleApprove: set status approved on every document
row whose id matches. -/
def approveDocs (id : String) (docs : List DocRow) : List DocRow :=
  docs.map (fun d => if d.id == id then { d with status := "approved" } else d)

/-- handleApprove from index.ts: admin gate; a body that fails to parse or has
no userIds field yields the empty list; the status update to approved runs
first, then (for a non-empty list) the assignment batch insert, whose failure
yields a 500 response while the status update stays committed. -/
def handleApprove (user : Option UserMeta) (body : Option (Option (List String)))
    (id : String) (st : State) : HResponse × State :=
  if !isAdmin user then ({ status := 403, body := .text "Forbidden" }, st)
  else
    let userIds := match body with
      | some (some l) => l
      | _ => []
    let st1 : State := { st with documents := approveDocs id st.documents }
    if userIds.length > 0 then
      let rows := userIds.map (fun uid => ({ doc_id := id, user_id := uid } : AssignRow))
      match insertAssignments st1.assignments rows with
      | .error msg => ({ status := 500, body := .errJson msg }, st1)
      | .ok newAssigns =>
        ({ status := 200, body := .okJson }, { st1 with assignments := newAssigns })
    else ({ status := 200, body := .okJson }, st1)

/-- The list computed by handleApprovedForUser: all approved documents ordered by
creation timestamp descending, intersected in the handler with the set of
documents assigned to the given user id. -/
def listVisibleFor (userId : String) (st : State) : List DocView :=
  let data := sortByCreatedDesc (st.documents.filter (fun d => d.status == "approved"))
  let allowed := (st.assignments.filter (fun a => a.user_id == userId)).map
    (fun a => a.doc_id)
  (data.filter (fun d => allowed.contains d.id)).map toView

/-- handleApprovedForUser from index.ts: the resolved user parameter is ignored;
the response is always 200 with the filtered list. -/
def handleApprovedForUser (_user : Option UserMeta) (userId : String) (st : State) :
    HResponse :=
  { status := 200, body := .docList (listVisibleFor userId st) }

/-- The pathname computation of the request dispatcher: strip the function
mount prefix, an empty result becoming the root path. -/
def routePathname (raw : String) : String :=
  let p :=
    if strStarts raw "/functions/v1/documents" then
      strDropChars raw (strLen "/functions/v1/documents")
    else raw
  if p == "" then "/" else p

/-- The approve route pattern: a leading slash, a greedy middle capture, and the
trailing approve segment. -/
def approveMatch (p : String) : Option String :=
  if strStarts p "/" && strEnds p "/approve" && decide (9 ≤ strLen p) then
    some (strDropRightChars (strDropChars p 1) 8)
  else none

/-- The approved-for-user route pattern, capturing everything after the marker. -/
def approvedMatch (p : String) : Option String :=
  if strStarts p "/approved/" then some (strDropChars p 10) else none

/-- The auth material and body of one request. -/
structure MockReq where
  method : String
  rawPath : String
  authHeader : Option String
  mockRole : Option String
  mockUserId : Option String
  body : Option (Option (List String))

/-- The abstract environment of the dispatcher: the identity provider and the
external inputs of the upload pipeline. -/
structure ServeEnv where
  validate : String → Option UserMeta
  uploadCtx : UploadCtx

/-- The request dispatcher of index.ts: resolve the identity, then route in
source order; unknown routes get 404. -/
def serve (env : ServeEnv) (req : MockReq) (st : State) : HResponse × State :=
  let pathname := routePathname req.rawPath
  let user := getAuthUser env.validate req.authHeader req.mockRole req.mockUserId
  if req.method == "POST" && pathname == "/upload" then handleUpload user env.uploadCtx st
  else if req.method == "GET" && pathname == "/pending" then (handlePending user st, st)
  else if req.method == "POST" && (approveMatch pathname).isSome then
    handleApprove user req.body ((approveMatch pathname).getD "") st
  else if req.method == "GET" && (approvedMatch pathname).isSome then
    (handleApprovedForUser user ((approvedMatch pathname).getD "") st, st)
  else ({ status := 404, body := .text "Not Found" }, st)

/-- The number of assignment rows for a given (doc, user) pair. -/
def countPair (l : List AssignRow) (d u : String) : Nat :=
  (l.filter (fun a => a.doc_id == d && a.user_id == u)).length

/-! Concrete fixtures used by the witnesses and counterexamples. -/

def exAdmin : Option UserMeta := some { id := "a1", role := "admin" }

def exEmployee : Option UserMeta := some { id := "e1", role := "employee" }

def exDoc : DocRow :=
  { id := "d1", title := "Q1 Report", file_url := "https://pub/d1.pdf",
    parsed_text := none, summary := none, status := "pending",
    created_at := 0, created_by := none }

def exState : State := { storage := [], documents := [exDoc], assignments := [] }

def exFile : FileData :=
  { name := "report.pdf", ftype := "application/pdf", bytes := [37, 80] }

def exCtx : UploadCtx :=
  { file := some exFile,
    titleField := some "Q1 Report", uuid := "uuid1", uploadErr := none,
    insertErr := none, publicUrl := fun p => "https://pub/" ++ p, docId := "D9",
    now := 7, pdf := some [["hello", "world"], ["second", "page"]],
    geminiKey := some "key", geminiResp := { ok := true, candidateText := some "a summary" } }

def exDocApproved : DocRow := { exDoc with status := "approved" }

def exStateApproved : State :=
  { storage := [], documents := [exDocApproved],
    assignments := [{ doc_id := "d1", user_id := "u1" }] }

def exEnv : ServeEnv := { validate := fun _ => none, uploadCtx := exCtx }

def exFailResp : GeminiResp := { ok := false, candidateText := none }

def exCtxNoKey : UploadCtx := { exCtx with geminiKey := none, geminiResp := exFailResp }

def exCtxNoPdf : UploadCtx := { exCtx with pdf := none }

def exReqNoIdentity : MockReq :=
  { method := "GET", rawPath := "/approved/u1", authHeader := none,
    mockRole := none, mockUserId := none, body := none }

/-! Helper lemmas. -/

lemma sortByCreatedDesc_cons (a : DocRow) (l : List DocRow) :
    sortByCreatedDesc (a :: l) = insertByCreatedDesc a (sortByCreatedDesc l) := rfl

lemma mem_insertByCreatedDesc {x d : DocRow} {l : List DocRow} :
    x ∈ insertByCreatedDesc d l ↔ x = d ∨ x ∈ l := by
  induction l with
  | nil => simp [insertByCreatedDesc]
  | cons a l ih =>
    simp only [insertByCreatedDesc]
    split
    · simp
    · simp only [List.mem_cons, ih]
      tauto

lemma mem_sortByCreatedDesc {x : DocRow} {l : List DocRow} :
    x ∈ sortByCreatedDesc l ↔ x ∈ l := by
  induction l with
  | nil => simp [sortByCreatedDesc]
  | cons a l ih =>
    rw [sortByCreatedDesc_cons, mem_insertByCreatedDesc, ih, List.mem_cons]

lemma pairMem_iff {l : List AssignRow} {r : AssignRow} : pairMem l r = true ↔ r ∈ l := by
  simp only [pairMem, List.any_eq_true, Bool.and_eq_true, beq_iff_eq]
  constructor
  · rintro ⟨a, ha, h1, h2⟩
    cases a; cases r
    simp_all
  · intro hr
    exact ⟨r, hr, rfl, rfl⟩

lemma pairMem_append {l₁ l₂ : List AssignRow} {r : AssignRow} :
    pairMem (l₁ ++ l₂) r = (pairMem l₁ r || pairMem l₂ r) := by
  simp [pairMem, List.any_append]

lemma pairMem_singleton {a r : AssignRow} :
    pairMem [a] r = (a.doc_id == r.doc_id && a.user_id == r.user_id) := by
  simp [pairMem]

lemma allowed_contains_iff {assigns : List AssignRow} {u i : String} :
    ((assigns.filter (fun a => a.user_id == u)).map (fun a => a.doc_id)).contains i = true ↔
      pairMem assigns { doc_id := i, user_id := u } = true := by
  simp only [List.contains, List.elem_iff, List.mem_map, List.mem_filter,
    pairMem, List.any_eq_true, Bool.and_eq_true, beq_iff_eq]
  constructor
  · rintro ⟨a, ⟨ha, h1⟩, h2⟩
    exact ⟨a, ha, h2, h1⟩
  · rintro ⟨a, ha, h1, h2⟩
    exact ⟨a, ⟨ha, h2⟩, h1⟩

lemma mem_listVisibleFor {v : DocView} {u : String} {st : State} :
    v ∈ listVisibleFor u st ↔
      ∃ d, d ∈ st.documents ∧ d.status = "approved" ∧
        pairMem st.assignments { doc_id := d.id, user_id := u } = true ∧ v = toView d := by
  simp only [listVisibleFor, List.mem_map, List.mem_filter, mem_sortByCreatedDesc,
    beq_iff_eq]
  constructor
  · rintro ⟨d, ⟨⟨hd, hs⟩, hc⟩, rfl⟩
    exact ⟨d, hd, hs, allowed_contains_iff.mp hc, rfl⟩
  · rintro ⟨d, hd, hs, hp, rfl⟩
    exact ⟨d, ⟨⟨hd, hs⟩, allowed_contains_iff.mpr hp⟩, rfl⟩

lemma insertAssignments_ok (ids : List String) :
    ∀ (existing : List AssignRow) (i : String), ids.Nodup →
      (∀ u ∈ ids, pairMem existing { doc_id := i, user_id := u } = false) →
      insertAssignments existing (ids.map (fun uid => { doc_id := i, user_id := uid })) =
        .ok (existing ++ ids.map (fun uid => { doc_id := i, user_id := uid })) := by
  induction ids with
  | nil => intro existing i _ _; simp [insertAssignments]
  | cons v rest ih =>
    intro existing i hnd hfresh
    simp only [List.map_cons, insertAssignments]
    rw [if_neg (by simp [hfresh v (List.mem_cons_self v rest)])]
    have hfresh' : ∀ u ∈ rest,
        pairMem (existing ++ [{ doc_id := i, user_id := v }])
          { doc_id := i, user_id := u } = false := by
      intro u hu
      rw [pairMem_append, hfresh u (List.mem_cons_of_mem _ hu), pairMem_singleton]
      have hvu : v ≠ u := fun h => (List.nodup_cons.mp hnd).1 (h ▸ hu)
      simp [hvu]
    have hrec := ih (existing ++ [({ doc_id := i, user_id := v } : AssignRow)]) i
      hnd.of_cons hfresh'
    rw [hrec]
    simp

lemma insertAssignments_dup {existing : List AssignRow} {r : AssignRow}
    (rest : List AssignRow) (h : pairMem existing r = true) :
    insertAssignments existing (r :: rest) =
      .error "duplicate key value violates unique constraint" := by
  simp [insertAssignments, h]

lemma countPair_eq_zero {l : List AssignRow} {i u : String}
    (h : pairMem l { doc_id := i, user_id := u } = false) : countPair l i u = 0 := by
  simp only [countPair, List.length_eq_zero, List.filter_eq_nil_iff]
  intro a ha hpa
  have : pairMem l { doc_id := i, user_id := u } = true := by
    apply List.any_eq_true.mpr
    refine ⟨a, ha, ?_⟩
    simp only [Bool.and_eq_true, beq_iff_eq] at hpa ⊢
    exact ⟨hpa.1, hpa.2⟩
  rw [this] at h
  simp at h

lemma countPair_append {l₁ l₂ : List AssignRow} {i u : String} :
    countPair (l₁ ++ l₂) i u = countPair l₁ i u + countPair l₂ i u := by
  simp [countPair, List.filter_append]

lemma countPair_map_not_mem {ids : List String} {i u : String} (h : u ∉ ids) :
    countPair (ids.map (fun uid => { doc_id := i, user_id := uid })) i u = 0 := by
  induction ids with
  | nil => rfl
  | cons v rest ih =>
    have hvu : (v == u) = false := by
      simp only [beq_eq_false_iff_ne, ne_eq]
      exact fun hv => h (hv ▸ List.mem_cons_self v rest)
    have ih' := ih (fun hu => h (List.mem_cons_of_mem _ hu))
    simpa [countPair, List.filter_cons, hvu] using ih'

lemma countPair_map_nodup {ids : List String} {i u : String}
    (hnd : ids.Nodup) (hm : u ∈ ids) :
    countPair (ids.map (fun uid => { doc_id := i, user_id := uid })) i u = 1 := by
  induction ids with
  | nil => cases hm
  | cons v rest ih =>
    rcases List.mem_cons.mp hm with rfl | hmr
    · have h0 := @countPair_map_not_mem rest i u (List.nodup_cons.mp hnd).1
      simpa [countPair, List.filter_cons] using h0
    · have hvu : (v == u) = false := by
        simp only [beq_eq_false_iff_ne, ne_eq]
        exact fun hv => (List.nodup_cons.mp hnd).1 (hv ▸ hmr)
      have ih' := ih hnd.of_cons hmr
      simpa [countPair, List.filter_cons, hvu] using ih'

lemma jsWs_newline : jsWs '\n' = true := by decide

lemma dropWhile_trim_append_newline (l : List Char) :
    ((l ++ ['\n']).dropWhile jsWs).reverse.dropWhile jsWs =
      (l.dropWhile jsWs).reverse.dropWhile jsWs := by
  rw [List.dropWhile_append]
  by_cases h : (l.dropWhile jsWs).isEmpty
  · rw [if_pos h]
    rw [List.isEmpty_iff.mp h]
    simp [List.dropWhile, jsWs_newline]
  · rw [if_neg h]
    rw [List.reverse_append]
    simp [List.dropWhile, jsWs_newline]

lemma jsTrim_append_newline (s : String) : jsTrim (s ++ "\n") = jsTrim s := by
  show String.mk _ = String.mk _
  rw [String.data_append]
  have : ("\n" : String).data = ['\n'] := rfl
  rw [this]
  exact congrArg (fun l => String.mk l.reverse) (dropWhile_trim_append_newline s.data)

lemma concatAll_map_newline (l : List String) (h : l ≠ []) :
    concatAll (l.map (fun a => a ++ "\n")) = sepJoin "\n" l ++ "\n" := by
  induction l with
  | nil => exact absurd rfl h
  | cons a rest ih =>
    cases rest with
    | nil => simp [concatAll, sepJoin, String.append_empty]
    | cons b r2 =>
      have hrec := ih (by simp)
      simp only [List.map_cons, concatAll] at hrec ⊢
      rw [hrec]
      simp [sepJoin, String.append_assoc]

/-! The claims. -/

/-- C1: For every request to POST /upload, GET /pending, or POST /{id}/approve
whose caller does not resolve to the admin role, the handler returns Forbidden
with HTTP status 403 and performs no data mutation: the state (blob storage,
document rows, assignment rows) is returned unchanged. -/
theorem nonAdmin_requests_forbidden (user : Option UserMeta)
    (h : isAdmin user = false) (ctx : UploadCtx) (body : Option (Option (List String)))
    (id : String) (st : State) :
    handleUpload user ctx st = ({ status := 403, body := .text "Forbidden" }, st) ∧
    handlePending user st = { status := 403, body := .text "Forbidden" } ∧
    handleApprove user body id st = ({ status := 403, body := .text "Forbidden" }, st) := by
  refine ⟨?_, ?_, ?_⟩ <;> simp [handleUpload, handlePending, handleApprove, h]

/-- Witness for C1: a concrete employee identity gets 403 from all three
handlers and the state is unchanged. -/
theorem nonAdmin_requests_forbidden_witness :
    handleUpload exEmployee exCtx exState =
      ({ status := 403, body := .text "Forbidden" }, exState) ∧
    handlePending exEmployee exState = { status := 403, body := .text "Forbidden" } ∧
    handleApprove exEmployee (some (some ["u1"])) "d1" exState =
      ({ status := 403, body := .text "Forbidden" }, exState) :=
  nonAdmin_requests_forbidden exEmployee rfl exCtx (some (some ["u1"])) "d1" exState

/-- C9: The text extractor is total over its modelled inputs: a parsing failure
yields the empty string, and on success the result is the per-page text
(items joined by spaces) concatenated with pages separated by a newline, with
surrounding whitespace trimmed from the final result. -/
theorem parsePdfToText_total_spec :
    parsePdfToText none = "" ∧
    ∀ pages : List (List String),
      parsePdfToText (some pages) = jsTrim (sepJoin "\n" (pages.map pageText)) := by
  refine ⟨rfl, ?_⟩
  intro pages
  cases pages with
  | nil => rfl
  | cons p ps =>
    simp only [parsePdfToText]
    have hmap : (p :: ps).map (fun q => pageText q ++ "\n") =
        ((p :: ps).map pageText).map (fun a => a ++ "\n") := by
      rw [List.map_map]
      rfl
    rw [hmap, concatAll_map_newline _ (by simp), jsTrim_append_newline]

/-- C10: For every approve request made by an admin whose body is absent, is not
valid JSON, or lacks a userIds field, the user list is treated as empty: the
status update to approved still runs, no assignment rows are inserted, and
ok is returned with status 200 — never a validation error. -/
theorem approve_malformed_body_ok (user : Option UserMeta) (h : isAdmin user = true)
    (body : Option (Option (List String))) (hbody : body = none ∨ body = some none)
    (id : String) (st : State) :
    handleApprove user body id st =
      ({ status := 200, body := .okJson },
        { st with documents := approveDocs id st.documents }) := by
  rcases hbody with rfl | rfl <;> simp [handleApprove, h]

/-- Witness for C10: a concrete admin approve call with an unparsable body
approves the document, inserts nothing and returns ok. -/
theorem approve_malformed_body_ok_witness :
    handleApprove exAdmin none "d1" exState =
      ({ status := 200, body := .okJson },
        { exState with documents := approveDocs "d1" exState.documents }) :=
  approve_malformed_body_ok exAdmin rfl none (Or.inl rfl) "d1" exState

lemma handleApprove_ok {admin : Option UserMeta} (hadmin : isAdmin admin = true)
    (st : State) (id : String) (userIds : List String) (hne : userIds ≠ [])
    (hnd : userIds.Nodup)
    (hfresh : ∀ u ∈ userIds, pairMem st.assignments { doc_id := id, user_id := u } = false) :
    handleApprove admin (some (some userIds)) id st =
      ({ status := 200, body := .okJson },
        { storage := st.storage, documents := approveDocs id st.documents,
          assignments :=
            st.assignments ++ userIds.map (fun uid => { doc_id := id, user_id := uid }) }) := by
  have hlen : userIds.length > 0 := List.length_pos.mpr hne
  have hins := insertAssignments_ok userIds st.assignments id hnd hfresh
  simp only [handleApprove, hadmin, Bool.not_true]
  rw [if_neg (by simp)]
  rw [if_pos hlen]
  rw [hins]

lemma handleApprove_dup {admin : Option UserMeta} (hadmin : isAdmin admin = true)
    (st : State) (id u0 : String) (rest : List String)
    (hdup : pairMem st.assignments { doc_id := id, user_id := u0 } = true) :
    handleApprove admin (some (some (u0 :: rest))) id st =
      ({ status := 500, body := .errJson "duplicate key value violates unique constraint" },
        { storage := st.storage, documents := approveDocs id st.documents,
          assignments := st.assignments }) := by
  have herr := insertAssignments_dup
    (rest.map (fun uid => ({ doc_id := id, user_id := uid } : AssignRow))) hdup
  simp only [handleApprove, hadmin, Bool.not_true]
  rw [if_neg (by simp)]
  simp only [List.map_cons]
  rw [if_pos (by simp)]
  rw [herr]

/-- C2 counterexample: with one pending document and a fresh assignment list,
calling approve twice with the same one-element user list makes the second
call fail with HTTP 500 and a duplicate-key error body: the duplicate is not
converted into a no-op or an ignorable conflict, and the second approve call
does not succeed as the claim states. -/
theorem approve_twice_claim_counterexample :
    (handleApprove exAdmin (some (some ["u1"])) "d1"
        (handleApprove exAdmin (some (some ["u1"])) "d1" exState).2).1.status = 500 ∧
    (handleApprove exAdmin (some (some ["u1"])) "d1"
        (handleApprove exAdmin (some (some ["u1"])) "d1" exState).2).1.body =
      .errJson "duplicate key value violates unique constraint" ∧
    (handleApprove exAdmin (some (some ["u1"])) "d1"
        (handleApprove exAdmin (some (some ["u1"])) "d1" exState).2).1.body ≠
      .okJson := by
  refine ⟨rfl, rfl, ?_⟩
  decide

/-- C2 (amended): approving twice with the same non-empty duplicate-free user
list leaves exactly one assignment row per (document, user) pair — the unique
(doc_id, user_id) constraint rejects the whole duplicate batch, so no
duplicate row is ever stored — but the second approve call does not succeed:
it returns HTTP 500 with the duplicate-key error, while the first returns 200. -/
theorem approve_twice_unique_but_second_fails
    (st : State) (id : String) (userIds : List String) (admin : Option UserMeta)
    (hadmin : isAdmin admin = true) (hne : userIds ≠ []) (hnd : userIds.Nodup)
    (hfresh : ∀ u ∈ userIds, pairMem st.assignments { doc_id := id, user_id := u } = false) :
    (handleApprove admin (some (some userIds)) id st).1.status = 200 ∧
    (handleApprove admin (some (some userIds)) id
        (handleApprove admin (some (some userIds)) id st).2).1.status = 500 ∧
    (handleApprove admin (some (some userIds)) id
        (handleApprove admin (some (some userIds)) id st).2).2.assignments =
      (handleApprove admin (some (some userIds)) id st).2.assignments ∧
    ∀ u ∈ userIds,
      countPair (handleApprove admin (some (some userIds)) id
          (handleApprove admin (some (some userIds)) id st).2).2.assignments id u = 1 := by
  have h1 := handleApprove_ok hadmin st id userIds hne hnd hfresh
  obtain ⟨u0, rest, rfl⟩ : ∃ u0 rest, userIds = u0 :: rest := by
    cases userIds with
    | nil => exact absurd rfl hne
    | cons a l => exact ⟨a, l, rfl⟩
  have hdup : pairMem (handleApprove admin (some (some (u0 :: rest))) id st).2.assignments
      { doc_id := id, user_id := u0 } = true := by
    rw [h1]
    rw [pairMem_append]
    apply Bool.or_eq_true_iff.mpr
    right
    apply pairMem_iff.mpr
    simp
  have h2 := handleApprove_dup hadmin
    (handleApprove admin (some (some (u0 :: rest))) id st).2 id u0 rest hdup
  refine ⟨by rw [h1], by rw [h2], by rw [h2, h1], ?_⟩
  intro u hu
  rw [h2, h1]
  rw [countPair_append]
  rw [countPair_eq_zero (hfresh u hu), countPair_map_nodup hnd hu]

/-- Witness for C2 (amended): the concrete two-user approve performed twice has
first status 200, second status 500, and exactly one row per pair. -/
theorem approve_twice_unique_but_second_fails_witness :
    (handleApprove exAdmin (some (some ["u1", "u2"])) "d1" exState).1.status = 200 ∧
    (handleApprove exAdmin (some (some ["u1", "u2"])) "d1"
        (handleApprove exAdmin (some (some ["u1", "u2"])) "d1" exState).2).1.status = 500 ∧
    ∀ u ∈ ["u1", "u2"],
      countPair (handleApprove exAdmin (some (some ["u1", "u2"])) "d1"
          (handleApprove exAdmin (some (some ["u1", "u2"])) "d1" exState).2).2.assignments
        "d1" u = 1 := by
  have h := approve_twice_unique_but_second_fails exState "d1" ["u1", "u2"] exAdmin
    rfl (by decide) (by decide) (by intro u hu; rfl)
  exact ⟨h.1, h.2.1, h.2.2.2⟩

/-- C3: A document approved with userIds [u1, u2] afterwards appears in
listVisibleFor u1 and in listVisibleFor u2 and does not appear in
listVisibleFor u3 for a u3 outside the list (with no pre-existing assignment);
moreover listVisibleFor returns exactly the documents whose status is approved
and for which an assignment row for the user exists, the intersection being
computed in the handler itself. -/
theorem approve_roundtrip_visibility
    (st : State) (d : DocRow) (hd : d ∈ st.documents)
    (u1 u2 u3 : String) (h12 : u1 ≠ u2) (h31 : u3 ≠ u1) (h32 : u3 ≠ u2)
    (admin : Option UserMeta) (hadmin : isAdmin admin = true)
    (hf1 : pairMem st.assignments { doc_id := d.id, user_id := u1 } = false)
    (hf2 : pairMem st.assignments { doc_id := d.id, user_id := u2 } = false)
    (hf3 : pairMem st.assignments { doc_id := d.id, user_id := u3 } = false) :
    (∃ v ∈ listVisibleFor u1 (handleApprove admin (some (some [u1, u2])) d.id st).2,
      v.id = d.id) ∧
    (∃ v ∈ listVisibleFor u2 (handleApprove admin (some (some [u1, u2])) d.id st).2,
      v.id = d.id) ∧
    (∀ v ∈ listVisibleFor u3 (handleApprove admin (some (some [u1, u2])) d.id st).2,
      v.id ≠ d.id) ∧
    (∀ (st' : State) (u : String) (v : DocView),
      v ∈ listVisibleFor u st' ↔
        ∃ d', d' ∈ st'.documents ∧ d'.status = "approved" ∧
          pairMem st'.assignments { doc_id := d'.id, user_id := u } = true ∧
          v = toView d') := by
  have h1 := handleApprove_ok hadmin st d.id [u1, u2] (by simp)
    (by simp [h12]) ?fresh
  case fresh =>
    intro u hu
    rcases List.mem_cons.mp hu with rfl | hu2
    · exact hf1
    · rcases List.mem_cons.mp hu2 with rfl | h3
      · exact hf2
      · cases h3
  rw [h1]
  have hdA : ({ d with status := "approved" } : DocRow) ∈ approveDocs d.id st.documents := by
    have hm := List.mem_map_of_mem
      (fun d' => if d'.id == d.id then { d' with status := "approved" } else d') hd
    simpa [approveDocs] using hm
  have hrows : pairMem ([u1, u2].map (fun uid => ({ doc_id := d.id, user_id := uid } : AssignRow)))
      { doc_id := d.id, user_id := u1 } = true := by
    apply pairMem_iff.mpr
    simp
  have hrows2 : pairMem ([u1, u2].map (fun uid => ({ doc_id := d.id, user_id := uid } : AssignRow)))
      { doc_id := d.id, user_id := u2 } = true := by
    apply pairMem_iff.mpr
    simp
  refine ⟨?_, ?_, ?_, fun st' u v => mem_listVisibleFor⟩
  · refine ⟨toView { d with status := "approved" }, ?_, rfl⟩
    apply mem_listVisibleFor.mpr
    refine ⟨{ d with status := "approved" }, hdA, rfl, ?_, rfl⟩
    rw [pairMem_append, hrows]
    simp
  · refine ⟨toView { d with status := "approved" }, ?_, rfl⟩
    apply mem_listVisibleFor.mpr
    refine ⟨{ d with status := "approved" }, hdA, rfl, ?_, rfl⟩
    rw [pairMem_append, hrows2]
    simp
  · intro v hv hvid
    obtain ⟨d', hd', hst', hpm', rfl⟩ := mem_listVisibleFor.mp hv
    have hdid : d'.id = d.id := hvid
    rw [hdid, pairMem_append] at hpm'
    rcases Bool.or_eq_true_iff.mp hpm' with hA | hB
    · rw [hf3] at hA
      simp at hA
    · have := pairMem_iff.mp hB
      simp only [List.map_cons, List.map_nil, List.mem_cons, List.mem_singleton] at this
      rcases this with h | h | h
      · exact h31 (congrArg AssignRow.user_id h)
      · exact h32 (congrArg AssignRow.user_id h)
      · cases h

/-- Witness for C3: the concrete approve of document d1 with users u1, u2 makes
it visible to u1 and not to u3. -/
theorem approve_roundtrip_visibility_witness :
    (∃ v ∈ listVisibleFor "u1"
        (handleApprove exAdmin (some (some ["u1", "u2"])) exDoc.id exState).2,
      v.id = exDoc.id) ∧
    (∀ v ∈ listVisibleFor "u3"
        (handleApprove exAdmin (some (some ["u1", "u2"])) exDoc.id exState).2,
      v.id ≠ exDoc.id) := by
  have h := approve_roundtrip_visibility exState exDoc (by simp [exState])
    "u1" "u2" "u3" (by decide) (by decide) (by decide) exAdmin rfl rfl rfl rfl
  exact ⟨h.1, h.2.2.1⟩


/-- The public URL of the stored file of one upload. -/
def uploadFileUrl (ctx : UploadCtx) (file : FileData) : String :=
  ctx.publicUrl (ctx.uuid ++ "-" ++ file.name)

/-- The text handed to the summarizer: the extracted text if non-empty,
otherwise the synthesized fallback description referencing the file URL. -/
def uploadSummaryInput (ctx : UploadCtx) (file : FileData) : String :=
  if parsePdfToText ctx.pdf == "" then fallbackDescription (uploadFileUrl ctx file)
  else parsePdfToText ctx.pdf

/-- The summary stored by one upload. -/
def uploadSummary (ctx : UploadCtx) (file : FileData) : String :=
  summarizeWithGemini ctx.geminiKey ctx.geminiResp (uploadSummaryInput ctx file)

/-- The document row produced by a fully successful upload, after both
best-effort updates. -/
def uploadFinalRow (user : Option UserMeta) (ctx : UploadCtx) (file : FileData) :
    DocRow :=
  { id := ctx.docId, title := uploadTitle ctx.titleField ctx.file,
    file_url := uploadFileUrl ctx file,
    parsed_text := some (parsePdfToText ctx.pdf),
    summary := some (uploadSummary ctx file),
    status := "pending", created_at := ctx.now,
    created_by := user.map (fun u => u.id) }

lemma handleUpload_status_200 {user : Option UserMeta} {ctx : UploadCtx} {st : State}
    (h : (handleUpload user ctx st).1.status = 200) :
    isAdmin user = true ∧
      ∃ file, ctx.file = some file ∧ ctx.uploadErr = none ∧ ctx.insertErr = none := by
  cases hA : isAdmin user with
  | false => simp [handleUpload, hA] at h
  | true =>
    cases hf : ctx.file with
    | none => simp [handleUpload, hA, hf] at h
    | some file =>
      cases hu : ctx.uploadErr with
      | some m => simp [handleUpload, hA, hf, hu] at h
      | none =>
        cases hi : ctx.insertErr with
        | some m => simp [handleUpload, hA, hf, hu, hi] at h
        | none => exact ⟨rfl, file, rfl, rfl, rfl⟩

lemma handleUpload_happy {user : Option UserMeta} {ctx : UploadCtx} {st : State}
    (file : FileData) (hadmin : isAdmin user = true) (hfile : ctx.file = some file)
    (hup : ctx.uploadErr = none) (hins : ctx.insertErr = none) :
    (handleUpload user ctx st).1 =
      { status := 200,
        body := .uploadJson ctx.docId (uploadTitle ctx.titleField ctx.file)
          (uploadFileUrl ctx file) "pending" } ∧
    uploadFinalRow user ctx file ∈ (handleUpload user ctx st).2.documents := by
  obtain ⟨cf, tf, uu, ue, ie, pu, di, nw, pd, gk, gr⟩ := ctx
  dsimp only at hfile hup hins
  subst hfile hup hins
  simp only [handleUpload]
  rw [if_neg (by simp [hadmin])]
  constructor
  · rfl
  · show uploadFinalRow user _ file ∈ _
    dsimp only
    apply List.mem_map.mpr
    refine ⟨{ id := di, title := uploadTitle tf (some file),
              file_url := pu (uu ++ "-" ++ file.name),
              parsed_text := some (parsePdfToText pd), summary := none,
              status := "pending", created_at := nw,
              created_by := user.map (fun u => u.id) }, ?_, ?_⟩
    · apply List.mem_map.mpr
      refine ⟨{ id := di, title := uploadTitle tf (some file),
                file_url := pu (uu ++ "-" ++ file.name),
                parsed_text := none, summary := none,
                status := "pending", created_at := nw,
                created_by := user.map (fun u => u.id) }, ?_, ?_⟩
      · simp
      · simp
    · simp [uploadFinalRow, uploadFileUrl, uploadSummary, uploadSummaryInput]

/-- C4: For every upload call that returns a success response, a document row
with status pending exists in the resulting state regardless of the outcome of
extraction and summarization, and the response body carries exactly the
document id, title, file URL, and status pending. -/
theorem upload_success_creates_pending (user : Option UserMeta) (ctx : UploadCtx)
    (st : State) (h : (handleUpload user ctx st).1.status = 200) :
    ∃ file, ctx.file = some file ∧
      (handleUpload user ctx st).1.body =
        .uploadJson ctx.docId (uploadTitle ctx.titleField ctx.file)
          (uploadFileUrl ctx file) "pending" ∧
      ∃ row ∈ (handleUpload user ctx st).2.documents,
        row.id = ctx.docId ∧ row.status = "pending" ∧
        row.file_url = uploadFileUrl ctx file := by
  obtain ⟨hA, file, hf, hu, hi⟩ := handleUpload_status_200 h
  obtain ⟨hresp, hmem⟩ := handleUpload_happy file hA hf hu hi
  exact ⟨file, hf, by rw [hresp], uploadFinalRow user ctx file, hmem, rfl, rfl, rfl⟩

/-- Witness for C4: the concrete successful upload yields the pending row and
the exact confirmation body. -/
theorem upload_success_creates_pending_witness :
    ∃ file, exCtx.file = some file ∧
      (handleUpload exAdmin exCtx exState).1.body =
        .uploadJson exCtx.docId (uploadTitle exCtx.titleField exCtx.file)
          (uploadFileUrl exCtx file) "pending" ∧
      ∃ row ∈ (handleUpload exAdmin exCtx exState).2.documents,
        row.id = exCtx.docId ∧ row.status = "pending" ∧
        row.file_url = uploadFileUrl exCtx file :=
  upload_success_creates_pending exAdmin exCtx exState rfl

/-- C5: The summarizer returns the empty string (rather than an error) whenever
no API credential is configured or the upstream response is non-success, and
the upload response (status and body) does not depend on the summarizer
configuration or response at all, so a summarization failure never fails the
enclosing upload request. -/
theorem summarize_failure_graceful :
    (∀ (k : Option String) (r : GeminiResp) (t : String),
      jsTruthyS k = false → summarizeWithGemini k r t = "") ∧
    (∀ (k : Option String) (r : GeminiResp) (t : String),
      r.ok = false → summarizeWithGemini k r t = "") ∧
    (∀ (user : Option UserMeta) (ctx : UploadCtx) (st : State)
        (k₁ k₂ : Option String) (r₁ r₂ : GeminiResp),
      (handleUpload user { ctx with geminiKey := k₁, geminiResp := r₁ } st).1 =
        (handleUpload user { ctx with geminiKey := k₂, geminiResp := r₂ } st).1) := by
  refine ⟨?_, ?_, ?_⟩
  · intro k r t hk
    simp [summarizeWithGemini, hk]
  · intro k r t hr
    unfold summarizeWithGemini
    cases hk : jsTruthyS k <;> simp [hk, hr]
  · intro user ctx st k₁ k₂ r₁ r₂
    obtain ⟨cf, tf, uu, ue, ie, pu, di, nw, pd, gk, gr⟩ := ctx
    cases hA : isAdmin user <;> cases cf <;> cases ue <;> cases ie <;>
      simp [handleUpload, hA]

/-- Witness for C5: concrete missing-key and non-success calls yield the empty
string, and a concrete upload has the same response under a failing and a
succeeding summarizer. -/
theorem summarize_failure_graceful_witness :
    summarizeWithGemini none { ok := true, candidateText := some "x" } "t" = "" ∧
    summarizeWithGemini (some "k") { ok := false, candidateText := none } "t" = "" ∧
    (handleUpload exAdmin exCtxNoKey exState).1 =
      (handleUpload exAdmin exCtx exState).1 := by
  refine ⟨summarize_failure_graceful.1 none _ "t" rfl,
    summarize_failure_graceful.2.1 (some "k") _ "t" rfl, ?_⟩
  exact summarize_failure_graceful.2.2 exAdmin exCtx exState none exCtx.geminiKey
    exFailResp exCtx.geminiResp

/-- C6: For every upload in which extraction yields empty text, summarization is
still attempted with the synthesized fallback description, which references
the file URL, and the upload call still returns success: the stored summary is
the summarizer applied to the fallback description. -/
theorem upload_empty_extraction_fallback (user : Option UserMeta) (ctx : UploadCtx)
    (st : State) (file : FileData) (hadmin : isAdmin user = true)
    (hfile : ctx.file = some file) (hup : ctx.uploadErr = none)
    (hins : ctx.insertErr = none) (hparse : parsePdfToText ctx.pdf = "") :
    (handleUpload user ctx st).1.status = 200 ∧
    (∃ row ∈ (handleUpload user ctx st).2.documents,
      row.id = ctx.docId ∧
      row.summary = some (summarizeWithGemini ctx.geminiKey ctx.geminiResp
        (fallbackDescription (uploadFileUrl ctx file)))) ∧
    (∃ a b, fallbackDescription (uploadFileUrl ctx file) =
      a ++ uploadFileUrl ctx file ++ b) := by
  obtain ⟨hresp, hmem⟩ := handleUpload_happy file hadmin hfile hup hins
  refine ⟨by rw [hresp], ⟨uploadFinalRow user ctx file, hmem, rfl, ?_⟩,
    "The document is at ", ". Summarize based on its content.", rfl⟩
  simp [uploadFinalRow, uploadSummary, uploadSummaryInput, hparse]

/-- Witness for C6: a concrete upload whose PDF parse fails still succeeds and
stores the summary of the fallback description. -/
theorem upload_empty_extraction_fallback_witness :
    (handleUpload exAdmin exCtxNoPdf exState).1.status = 200 ∧
    (∃ row ∈ (handleUpload exAdmin exCtxNoPdf exState).2.documents,
      row.id = exCtxNoPdf.docId ∧
      row.summary = some (summarizeWithGemini exCtxNoPdf.geminiKey exCtxNoPdf.geminiResp
        (fallbackDescription (uploadFileUrl exCtxNoPdf exFile)))) := by
  have h := upload_empty_extraction_fallback exAdmin exCtxNoPdf exState exFile
    rfl rfl rfl rfl rfl
  exact ⟨h.1, h.2.1⟩


lemma approvedMatch_some {p u : String} (h : approvedMatch p = some u) :
    strStarts p "/approved/" = true := by
  by_cases hs : strStarts p "/approved/" = true
  · exact hs
  · have hs' : strStarts p "/approved/" = false := by
      revert hs
      cases strStarts p "/approved/" <;> simp
    unfold approvedMatch at h
    rw [hs'] at h
    simp at h

/-- C7 counterexample: against a state with one approved document assigned to
u1, a GET request to /approved/u1 carrying no token and no mock headers
resolves to no identity, yet it is served status 200 with the full array of
documents approved and assigned to u1 — the route does not require a
resolvable caller identity. -/
theorem approved_route_claim_counterexample :
    getAuthUser exEnv.validate exReqNoIdentity.authHeader exReqNoIdentity.mockRole
      exReqNoIdentity.mockUserId = none ∧
    (serve exEnv exReqNoIdentity exStateApproved).1.status = 200 ∧
    (serve exEnv exReqNoIdentity exStateApproved).1.body =
      .docList [toView exDocApproved] := by
  refine ⟨rfl, rfl, rfl⟩

/-- C7 (amended): GET /approved/{userId} performs no identity check at all: for
every request matching that route, the dispatcher hands the request to the
handler whatever the resolved identity is (including none), the handler output
is identical for every identity, and the response is always status 200 with
the handler-filtered list — any restriction for anonymous callers can come
only from data-layer row-level policies, not from this code. -/
theorem approved_route_no_identity_check (env : ServeEnv) (req : MockReq) (st : State)
    (userId : String) (hm : req.method = "GET")
    (hp : approvedMatch (routePathname req.rawPath) = some userId) :
    serve env req st =
      (handleApprovedForUser
        (getAuthUser env.validate req.authHeader req.mockRole req.mockUserId)
        userId st, st) ∧
    (∀ u u' : Option UserMeta,
      handleApprovedForUser u userId st = handleApprovedForUser u' userId st) ∧
    (serve env req st).1.status = 200 ∧
    (serve env req st).1.body = .docList (listVisibleFor userId st) := by
  have hs := approvedMatch_some hp
  have h1 : (routePathname req.rawPath == "/upload") = false := by
    cases hb : routePathname req.rawPath == "/upload"
    · rfl
    · rw [eq_of_beq hb] at hs
      exact absurd hs (by decide)
  have h2 : (routePathname req.rawPath == "/pending") = false := by
    cases hb : routePathname req.rawPath == "/pending"
    · rfl
    · rw [eq_of_beq hb] at hs
      exact absurd hs (by decide)
  have hserve : serve env req st =
      (handleApprovedForUser
        (getAuthUser env.validate req.authHeader req.mockRole req.mockUserId)
        userId st, st) := by
    unfold serve
    rw [hm]
    simp [h1, h2, hp]
  refine ⟨hserve, fun u u' => rfl, ?_, ?_⟩
  · rw [hserve]
    rfl
  · rw [hserve]
    rfl

/-- Witness for C7 (amended): the concrete identity-free request is dispatched
to the handler and answered with status 200. -/
theorem approved_route_no_identity_check_witness :
    serve exEnv exReqNoIdentity exStateApproved =
      (handleApprovedForUser
        (getAuthUser exEnv.validate exReqNoIdentity.authHeader
          exReqNoIdentity.mockRole exReqNoIdentity.mockUserId)
        "u1" exStateApproved, exStateApproved) ∧
    (serve exEnv exReqNoIdentity exStateApproved).1.status = 200 := by
  have h := approved_route_no_identity_check exEnv exReqNoIdentity exStateApproved
    "u1" rfl rfl
  exact ⟨h.1, h.2.2.1⟩

/-- C8: For every request whose bearer token is absent or fails validation but
which carries both mock headers with non-empty claimed values, the access
resolver synthesizes an identity with exactly the claimed role and user id;
in particular a claimed role admin makes isAdmin true and passes every
admin-only gate (none of the three gated handlers answers 403). -/
theorem mock_headers_admin_identity
    (validate : String → Option UserMeta) (authHeader : Option String)
    (mr mu : String) (htok : tokenUser validate authHeader = none)
    (hmr : mr ≠ "") (hmu : mu ≠ "") :
    getAuthUser validate authHeader (some mr) (some mu) =
      some { id := mu, role := mr } ∧
    (mr = "admin" →
      isAdmin (getAuthUser validate authHeader (some mr) (some mu)) = true ∧
      (∀ (ctx : UploadCtx) (st : State),
        (handleUpload (getAuthUser validate authHeader (some mr) (some mu))
          ctx st).1.status ≠ 403) ∧
      (∀ st : State,
        (handlePending (getAuthUser validate authHeader (some mr) (some mu))
          st).status ≠ 403) ∧
      (∀ (body : Option (Option (List String))) (id : String) (st : State),
        (handleApprove (getAuthUser validate authHeader (some mr) (some mu))
          body id st).1.status ≠ 403)) := by
  have hget : getAuthUser validate authHeader (some mr) (some mu) =
      some { id := mu, role := mr } := by
    unfold getAuthUser
    rw [htok]
    have hj1 : jsTruthyS (some mr) = true := by simp [jsTruthyS, hmr]
    have hj2 : jsTruthyS (some mu) = true := by simp [jsTruthyS, hmu]
    simp [hj1, hj2]
  refine ⟨hget, fun hrole => ?_⟩
  have hadm : isAdmin (getAuthUser validate authHeader (some mr) (some mu)) = true := by
    rw [hget, hrole]
    simp [isAdmin]
  refine ⟨hadm, ?_, ?_, ?_⟩
  · intro ctx st
    cases hf : ctx.file with
    | none => simp [handleUpload, hadm, hf]
    | some file =>
      cases hu : ctx.uploadErr with
      | some m => simp [handleUpload, hadm, hf, hu]
      | none =>
        cases hi : ctx.insertErr with
        | some m => simp [handleUpload, hadm, hf, hu, hi]
        | none => simp [handleUpload, hadm, hf, hu, hi]
  · intro st
    simp [handlePending, hadm]
  · intro body id st
    simp only [handleApprove, hadm, Bool.not_true]
    rw [if_neg (by simp)]
    split
    · split <;> simp
    · simp

/-- Witness for C8: with no Authorization header and mock headers claiming the
admin role, a concrete identity is synthesized and it is an admin. -/
theorem mock_headers_admin_identity_witness :
    getAuthUser (fun _ => none) none (some "admin") (some "m1") =
      some { id := "m1", role := "admin" } ∧
    isAdmin (getAuthUser (fun _ => none) none (some "admin") (some "m1")) = true := by
  have h := mock_headers_admin_identity (fun _ => none) none "admin" "m1" rfl
    (by decide) (by decide)
  exact ⟨h.1, (h.2 rfl).1⟩

end MetroDocs
